import Mathlib

/-
  Verification development for the bisonrelay repository.

  Shallow embedding of the parts of the code the claims are about:
  - src/inidb/inidb.go              (INI-file database with rotating backups)
  - src/clientrpc/clientrpc.proto   (consumer-facing RPC schema)
  - src/unnamed/part_003            (chat message element parsing, chat window)
  together with definitions modelled from spec.md for components of the
  repository whose implementation files are not under src/ (the RV manager,
  the GC generation gate, local-delivery acks, the RM codec, the keepalive
  clamp).
-/

namespace BisonRelay

namespace Inidb

/-- Errors produced by the INI database operations. `notFound` embeds the Go
package variable `ErrNotFound`; `renameFailed` stands for the wrapped error
returned when `os.Rename` of the original file fails (no original present). -/
inductive DBError
  | notFound
  | renameFailed
deriving DecidableEq, Repr

/-- A table is the list of its records, embedding one ini section of
key = value pairs. Go iterates maps in unspecified order; the model fixes
the list order, which no claim depends on. -/
abbrev Table := List (String × String)

/-- The sections of the ini file, embedding the `ini.File` map. -/
abbrev Tables := List (String × Table)

/-- Lookup of a section by name, embedding the Go map access `i.tables[table]`. -/
def Tables.find (ts : Tables) (name : String) : Option Table :=
  (List.find? (fun p => p.1 == name) ts).map (fun p => p.2)

/-- The in-memory INIDB state (src/inidb/inidb.go, struct INIDB). The mutex
is concurrency control only and is not part of the functional state. -/
structure INIDB where
  depth : Int
  dirty : Bool
  created : Bool
  tables : Tables
deriving DecidableEq, Repr

/-- State of the directory holding the database file: the contents of the
database file itself (none when absent) and the backup files, kept as
(timestamp, contents) pairs in ascending timestamp order. The backup file
names are `filename.<timestamp>` with a fixed-width timestamp format, so
the name order used by `os.ReadDir` coincides with timestamp order. -/
structure DirState where
  main : Option String
  backups : List (Nat × String)
deriving DecidableEq, Repr

/-- Rendering of one section, embedding the `fmt.Fprintf` loop of Save. -/
def renderTable (name : String) (t : Table) : String :=
  (if name == "" then "" else "[" ++ name ++ "]\n") ++
    String.join (t.map (fun r => r.1 ++ " = " ++ r.2 ++ "\n")) ++ "\n"

/-- Rendering of the whole database into file contents, embedding the body
of Save that writes the temporary file (header line `auto` then sections). -/
def renderTables (ts : Tables) : String :=
  "# This file is autogenerated, DO NOT EDIT!\n" ++
    String.join (ts.map (fun p => renderTable p.1 p.2))

/-- INIDB.prune (src/inidb/inidb.go lines 145-176): negative depth keeps
everything; otherwise the files whose name starts with `filename.` = exactly
the backups are listed, and if there are at least `depth` of them, all but
the newest `depth` are removed (`pl[:len(pl)-i.depth]` is deleted). -/
def prune (depth : Int) (d : DirState) : DirState :=
  if depth < 0 then d
  else if (d.backups.length : Int) - depth < 0 then d
  else { d with backups := d.backups.drop (d.backups.length - depth.toNat) }

/-- The backup step of INIDB.Save (lines 122-132): when the database was not
created by this process, the original file is renamed to
`filename.<timestamp>`; renaming a missing original fails. When `created`
is set the step does nothing. `now` is the timestamp taken from the clock. -/
def backupStep (i : INIDB) (d : DirState) (now : Nat) : Except DBError DirState :=
  if i.created then Except.ok d
  else
    match d.main with
    | none => Except.error DBError.renameFailed
    | some c =>
        Except.ok { main := none, backups := d.backups ++ [(now, c)] }

/-- INIDB.Save (src/inidb/inidb.go lines 96-143): a clean database is left
alone; otherwise the tables are written to a temporary file, the original is
backed up (unless `created`), the temporary file is renamed over the
original, the dirty flag is cleared and the backups are pruned. -/
def save (i : INIDB) (d : DirState) (now : Nat) :
    Except DBError (INIDB × DirState) :=
  if !i.dirty then Except.ok (i, d)
  else
    match backupStep i d now with
    | Except.error e => Except.error e
    | Except.ok d1 =>
        let d2 : DirState := { d1 with main := some (renderTables i.tables) }
        Except.ok ({ i with dirty := false }, prune i.depth d2)

/-- Directory contents after a successful Save of a dirty database that was
not created by this process and whose file held `c`: the new rendering is in
place and the backups, with the fresh timestamped backup of `c` appended,
are pruned. -/
def savedDir (i : INIDB) (d : DirState) (now : Nat) (c : String) : DirState :=
  prune i.depth ⟨some (renderTables i.tables), d.backups ++ [(now, c)]⟩

/-- INIDB.Get (lines 180-190). -/
def INIDB.get (i : INIDB) (table key : String) : Except DBError String :=
  match Tables.find i.tables table with
  | none => Except.error DBError.notFound
  | some t =>
      match (List.find? (fun r => r.1 == key) t).map (fun r => r.2) with
      | none => Except.error DBError.notFound
      | some v => Except.ok v

/-- Update of one record inside a section, embedding `s[key] = value`. -/
def setRecord (t : Table) (key value : String) : Table :=
  if t.any (fun r => r.1 == key) then
    t.map (fun r => if r.1 == key then (key, value) else r)
  else t ++ [(key, value)]

/-- INIDB.Set (lines 194-206): a missing table yields ErrNotFound with no
state change; otherwise the record is created/overwritten and the dirty
flag is set. The pair returns the (possibly unchanged) state explicitly. -/
def INIDB.set (i : INIDB) (table key value : String) : Option DBError × INIDB :=
  match Tables.find i.tables table with
  | none => (some DBError.notFound, i)
  | some _ =>
      (none,
        { i with
          tables := i.tables.map
            (fun p => if p.1 == table then (p.1, setRecord p.2 key value) else p)
          dirty := true })

/-- INIDB.Del (lines 209-222): missing table yields ErrNotFound with no
state change; otherwise the key is deleted and the dirty flag is set. -/
def INIDB.del (i : INIDB) (table key : String) : Option DBError × INIDB :=
  match Tables.find i.tables table with
  | none => (some DBError.notFound, i)
  | some _ =>
      (none,
        { i with
          tables := i.tables.map
            (fun p =>
              if p.1 == table then (p.1, p.2.filter (fun r => !(r.1 == key)))
              else p)
          dirty := true })

/-- INIDB.NewTable (lines 225-230): `ini.File.Section` creates the section
when absent and leaves it alone otherwise. -/
def INIDB.newTable (i : INIDB) (table : String) : INIDB :=
  match Tables.find i.tables table with
  | some _ => i
  | none => { i with tables := i.tables ++ [(table, [])] }

/-- INIDB.DelTable (lines 233-246): missing table yields ErrNotFound with no
state change; otherwise the whole section is removed and dirty is set. -/
def INIDB.delTable (i : INIDB) (table : String) : Option DBError × INIDB :=
  match Tables.find i.tables table with
  | none => (some DBError.notFound, i)
  | some _ =>
      (none,
        { i with
          tables := i.tables.filter (fun p => !(p.1 == table))
          dirty := true })

end Inidb

namespace ClientRPC

/-- One field of a protobuf message: declared name, type, field number
(src/clientrpc/clientrpc.proto). -/
structure ProtoField where
  name : String
  typ : String
  number : Nat
deriving DecidableEq, Repr

/-- Fields of message VersionResponse (clientrpc.proto lines 99-109):
`string app_version = 1; string go_runtime = 2; string app_name = 3;`. -/
def versionResponseFields : List ProtoField :=
  [⟨"app_version", "string", 1⟩,
   ⟨"go_runtime", "string", 2⟩,
   ⟨"app_name", "string", 3⟩]

/-- Modelled from the spec: the KeepaliveStream server implementation is not
under src/; clientrpc.proto (lines 111-117) documents the request contract
as `interval is how often to send the keepalive (in milliseconds). A minimum
of 1 second is imposed, regardless of the value passed as interval`, and the
spec says the server clamps the interval to at least 1 s. The effective
heartbeat period in milliseconds for a requested interval. -/
def effectiveKeepaliveInterval (interval : Int) : Int :=
  if interval < 1000 then 1000 else interval

/-- Modelled from the spec: the local-delivery ack state (spec section 4.H);
the implementation is not under src/. Durable state per consumer stream:
the acked high-water mark and the persisted records
`{sequence_id, acked}`. -/
structure AckState where
  hw : Nat
  records : List (Nat × Bool)
deriving DecidableEq, Repr

/-- Modelled from the spec: `on consumer-provided ack for sequence_id, marks
all records up to that ID acked`; the recorded high-water mark never
decreases. -/
def ackUpTo (s : Nat) (st : AckState) : AckState :=
  { hw := max st.hw s,
    records := st.records.map (fun r => if r.1 ≤ s then (r.1, true) else r) }

/-- Well-formedness of the durable ack state: every persisted record at or
below the high-water mark is already marked acked. This holds of every
state the delivery layer produces, because acks are the only marker. -/
def AckWf (st : AckState) : Prop :=
  ∀ r ∈ st.records, r.1 ≤ st.hw → r.2 = true

instance (st : AckState) : Decidable (AckWf st) :=
  inferInstanceAs (Decidable (∀ r ∈ st.records, r.1 ≤ st.hw → r.2 = true))

end ClientRPC

namespace GC

/-- Outcome of the inbound group-chat generation gate. -/
inductive GenAction
  | accept
  | drop
  | fetchMeta
deriving DecidableEq, Repr

/-- Modelled from the spec: the GC controller implementation is not under
src/. Spec section 4.I: inbound GC messages are accepted only if their
generation equals the receiver current value; lower generations are
dropped, higher generations trigger a metadata-fetch request. The message
generation field is RMGroupMessage.generation (clientrpc.proto). -/
def generationGate (g cur : Nat) : GenAction :=
  if g = cur then GenAction.accept
  else if g < cur then GenAction.drop
  else GenAction.fetchMeta

end GC

namespace RV

/-- An RV tag: a 32-byte rendezvous tag, modelled as its byte string. -/
abbrev Tag := List Nat

/-- Errors of the RV manager registration contract. -/
inductive RVError
  | tagCollision
deriving DecidableEq, Repr

/-- Modelled from the spec: the RV manager implementation is not under src/.
Spec section 4.D: it owns `map<RV tag, handler>`. Handlers are opaque here,
identified by a number. -/
structure Manager where
  handlers : List (Tag × Nat)
deriving DecidableEq, Repr

/-- Lookup of the handler registered for a tag. -/
def Manager.lookup (m : Manager) (t : Tag) : Option Nat :=
  (List.find? (fun p => p.1 == t) m.handlers).map (fun p => p.2)

/-- Modelled from the spec: `register(tag, handler) MUST NOT register a tag
already present (that indicates protocol desync, FailsWith(tag_collision))`.
The returned state is the map after the call: unchanged on collision. -/
def Manager.register (m : Manager) (t : Tag) (h : Nat) :
    Except RVError Unit × Manager :=
  if (m.lookup t).isSome then (Except.error RVError.tagCollision, m)
  else (Except.ok (), { handlers := m.handlers ++ [(t, h)] })

end RV

namespace RM

/-- Message mode of a chat message (clientrpc.proto enum MessageMode). -/
inductive MessageMode
  | normal
  | me
deriving DecidableEq, Repr

/-- RMPrivateMessage (clientrpc.proto lines 358-364). -/
structure RMPrivateMessage where
  message : String
  mode : MessageMode
deriving DecidableEq, Repr

/-- RMGroupMessage (clientrpc.proto lines 368-378): group id bytes,
metadata generation, text, mode. -/
structure RMGroupMessage where
  id : List Nat
  generation : Nat
  message : String
  mode : MessageMode
deriving DecidableEq, Repr

/-- Modelled from the spec: the routed-message variant enumeration of spec
section 4.A (the /rpc codec implementation is not under src/): PM, GCM, GC
invite, GC join, GC-list update, post, post-status, post-subscribe and
unsubscribe, tip, tip-progress, KX step, mediate-KX, file-transfer frame,
ping. Payloads beyond the two message types fixed by clientrpc.proto are
abstracted as their serialized contents. -/
inductive Msg
  | pm (m : RMPrivateMessage)
  | gcm (m : RMGroupMessage)
  | gcInvite (payload : String)
  | gcJoin (payload : String)
  | gcListUpdate (payload : String)
  | post (payload : String)
  | postStatus (payload : String)
  | postSubscribe (payload : String)
  | postUnsubscribe (payload : String)
  | tip (atoms : Nat)
  | tipProgress (payload : String)
  | kxStep (payload : String)
  | mediateKX (payload : String)
  | ftFrame (payload : List Nat)
  | ping
deriving DecidableEq, Repr

/-- Length-prefixed encoding of a string as a byte list (the codec of spec
section 4.A serializes to a self-delimiting byte form; the exact framing is
abstracted, only its round-trip contract is used). -/
def encodeStr (s : String) : List Nat :=
  s.data.length :: s.data.map Char.toNat

/-- Decoding of a length-prefixed string, returning the remainder. -/
def decodeStr : List Nat → Option (String × List Nat)
  | [] => none
  | n :: rest =>
      if n ≤ rest.length then
        some (String.mk ((rest.take n).map Char.ofNat), rest.drop n)
      else none

/-- Length-prefixed encoding of raw bytes. -/
def encodeBytes (b : List Nat) : List Nat := b.length :: b

/-- Decoding of length-prefixed raw bytes, returning the remainder. -/
def decodeBytes : List Nat → Option (List Nat × List Nat)
  | [] => none
  | n :: rest =>
      if n ≤ rest.length then some (rest.take n, rest.drop n) else none

/-- Encoding of a message mode as one byte. -/
def encodeMode : MessageMode → Nat
  | MessageMode.normal => 0
  | MessageMode.me => 1

/-- Decoding of a message mode byte. -/
def decodeMode : Nat → Option MessageMode
  | 0 => some MessageMode.normal
  | 1 => some MessageMode.me
  | _ => none

/-- Modelled from the spec: encode(plaintext RM) to bytes. A leading variant
tag followed by the length-prefixed fields. Encoding is a total function,
hence deterministic. -/
def encode : Msg → List Nat
  | Msg.pm m => 0 :: encodeMode m.mode :: encodeStr m.message
  | Msg.gcm m =>
      1 :: encodeMode m.mode :: m.generation ::
        (encodeBytes m.id ++ encodeStr m.message)
  | Msg.gcInvite p => 2 :: encodeStr p
  | Msg.gcJoin p => 3 :: encodeStr p
  | Msg.gcListUpdate p => 4 :: encodeStr p
  | Msg.post p => 5 :: encodeStr p
  | Msg.postStatus p => 6 :: encodeStr p
  | Msg.postSubscribe p => 7 :: encodeStr p
  | Msg.postUnsubscribe p => 8 :: encodeStr p
  | Msg.tip a => [9, a]
  | Msg.tipProgress p => 10 :: encodeStr p
  | Msg.kxStep p => 11 :: encodeStr p
  | Msg.mediateKX p => 12 :: encodeStr p
  | Msg.ftFrame p => 13 :: encodeBytes p
  | Msg.ping => [14]

/-- Decoding helper for the variants whose payload is one string; checks
that the input is fully consumed. -/
def decodePayload (mk : String → Msg) (rest : List Nat) : Option Msg :=
  match decodeStr rest with
  | some (p, []) => some (mk p)
  | _ => none

/-- Decoding helper for the private-message variant: mode byte then text. -/
def decodePM (rest : List Nat) : Option Msg :=
  match rest with
  | mo :: rest2 =>
      match decodeMode mo, decodeStr rest2 with
      | some mode, some (msg, []) => some (Msg.pm ⟨msg, mode⟩)
      | _, _ => none
  | _ => none

/-- Decoding helper for the group-message variant: mode byte, generation,
group id bytes, then text. -/
def decodeGCM (rest : List Nat) : Option Msg :=
  match rest with
  | mo :: gen :: rest2 =>
      match decodeMode mo, decodeBytes rest2 with
      | some mode, some (id, rest3) =>
          match decodeStr rest3 with
          | some (msg, []) => some (Msg.gcm ⟨id, gen, msg, mode⟩)
          | _ => none
      | _, _ => none
  | _ => none

/-- Decoding helper for the file-transfer frame variant. -/
def decodeFT (rest : List Nat) : Option Msg :=
  match decodeBytes rest with
  | some (p, []) => some (Msg.ftFrame p)
  | _ => none

/-- Decoding helper for the tip variant: exactly one amount byte. -/
def decodeTip (rest : List Nat) : Option Msg :=
  match rest with
  | [a] => some (Msg.tip a)
  | _ => none

/-- Decoding of a tagged payload. -/
def decodeTagged (t : Nat) (rest : List Nat) : Option Msg :=
  if t = 0 then decodePM rest
  else if t = 1 then decodeGCM rest
  else if t = 2 then decodePayload Msg.gcInvite rest
  else if t = 3 then decodePayload Msg.gcJoin rest
  else if t = 4 then decodePayload Msg.gcListUpdate rest
  else if t = 5 then decodePayload Msg.post rest
  else if t = 6 then decodePayload Msg.postStatus rest
  else if t = 7 then decodePayload Msg.postSubscribe rest
  else if t = 8 then decodePayload Msg.postUnsubscribe rest
  else if t = 9 then decodeTip rest
  else if t = 10 then decodePayload Msg.tipProgress rest
  else if t = 11 then decodePayload Msg.kxStep rest
  else if t = 12 then decodePayload Msg.mediateKX rest
  else if t = 13 then decodeFT rest
  else if t = 14 then (match rest with | [] => some Msg.ping | _ => none)
  else none

/-- Modelled from the spec: decode(bytes) returns the variant or fails
(malformed). Inverse of `encode`; trailing garbage and unknown tags are
malformed. -/
def decode : List Nat → Option Msg
  | [] => none
  | t :: rest => decodeTagged t rest

end RM

namespace ChatUI

/-- One element of a chat msg AST (src/unnamed/part_003, struct chatMsgEl):
text, or an embed, or a mention, or a url. Construction sites in the source
set exactly one of the fields; strings are modelled as character lists so
that the index arithmetic of the Go slicing is explicit. Embed arguments
are irrelevant to the parsing passes and are kept opaque. -/
structure ChatMsgEl where
  text : List Char
  embed : Option Unit
  mention : Option (List Char)
  url : Option (List Char)
deriving DecidableEq, Repr

/-- Element holding only text (`chatMsgEl{text: s}`). -/
def ChatMsgEl.ofText (s : List Char) : ChatMsgEl := ⟨s, none, none, none⟩

/-- Element holding a mention (`chatMsgEl{mention: &mention}`). -/
def ChatMsgEl.ofMention (m : List Char) : ChatMsgEl := ⟨[], none, some m, none⟩

/-- Element holding a url (`chatMsgEl{url: &url}`). -/
def ChatMsgEl.ofUrl (u : List Char) : ChatMsgEl := ⟨[], none, none, some u⟩

/-- Character content of an element: its text, mention and url strings. -/
def ChatMsgEl.content (el : ChatMsgEl) : List Char :=
  el.text ++ el.mention.getD [] ++ el.url.getD []

/-- Concatenated content of an element line in list order. -/
def lineContent (l : List ChatMsgEl) : List Char :=
  (l.map ChatMsgEl.content).foldr (fun a b => a ++ b) []

/-- The Go slice `s[a:b]`. -/
def substr (s : List Char) (a b : Nat) : List Char :=
  (s.drop a).take (b - a)

/-- Core of the element-splitting loop body shared by splitMentions and
splitURLs (src/unnamed/part_003 lines 49-62 and 111-124): for the match
positions, emit `s[lastEnd:pos[0]]` as text, the match `s[pos[0]:pos[1]]`
wrapped by `mk`, and finally the suffix `s[lastEnd:]` as text. -/
def splitSegs (mk : List Char → ChatMsgEl) (s : List Char) :
    Nat → List (Nat × Nat) → List ChatMsgEl
  | lastEnd, [] => [ChatMsgEl.ofText (s.drop lastEnd)]
  | lastEnd, (a, b) :: ps =>
      ChatMsgEl.ofText (substr s lastEnd a) :: mk (substr s a b) ::
        splitSegs mk s b ps

/-- One splitting pass over the element list: elements with empty text and
elements with no match are kept; a matched element is replaced in place by
its split. `find` embeds `re.FindAllStringIndex(s, -1)` of the compiled
mention regexp (splitMentions) or of urlRegexp (splitURLs). -/
def splitPass (mk : List Char → ChatMsgEl) (find : List Char → List (Nat × Nat))
    (l : List ChatMsgEl) : List ChatMsgEl :=
  l.flatMap fun el =>
    if el.text = [] then [el]
    else
      match find el.text with
      | [] => [el]
      | ps => splitSegs mk el.text 0 ps

/-- chatMsgElLine.splitMentions (lines 33-64), with the match positions of
the compiled regexp passed as `find`. -/
def splitMentions (find : List Char → List (Nat × Nat)) (l : List ChatMsgEl) :
    List ChatMsgEl :=
  splitPass ChatMsgEl.ofMention find l

/-- chatMsgElLine.splitURLs (lines 99-126), with the match positions of
urlRegexp passed as `find`. -/
def splitURLs (find : List Char → List (Nat × Nat)) (l : List ChatMsgEl) :
    List ChatMsgEl :=
  splitPass ChatMsgEl.ofUrl find l

/-- Validity of a match-position list starting from offset `lastEnd`:
matches are in order, non-overlapping and each has a start at or before its
end. `regexp.FindAllStringIndex` always returns such a list. -/
def validSegs : Nat → List (Nat × Nat) → Bool
  | _, [] => true
  | lastEnd, (a, b) :: ps => lastEnd ≤ a && a ≤ b && validSegs b ps

/-- Elements as built by the source: a nonempty text element carries no
mention and no url string. -/
def textOnly (el : ChatMsgEl) : Bool :=
  el.text = [] || (el.mention = none && el.url = none)

/-- A chat message, reduced to the three flags appendMsg reads
(src/unnamed/part_003, struct chatMsg). -/
structure ChatMsg where
  mine : Bool
  internal : Bool
  help : Bool
deriving DecidableEq, Repr

/-- The chat window state the claims are about (struct chatWindow): the
message list and the unread index. The index is an Int, as the Go field is
an int. -/
structure ChatWindow where
  msgs : List ChatMsg
  unreadIdx : Int
deriving DecidableEq, Repr

/-- A fresh chat window: no messages, unreadIdx at its zero value. -/
def emptyChatWindow : ChatWindow := ⟨[], 0⟩

/-- chatWindow.appendMsg (lines 187-199): nil messages are ignored; the
message is appended, and when it is mine/internal/help and the unread index
sat at the end of the list, the index moves to the new end. -/
def appendMsg (cw : ChatWindow) (msg : Option ChatMsg) : ChatWindow :=
  match msg with
  | none => cw
  | some m =>
      let reset := (m.mine || m.internal || m.help) &&
        (cw.unreadIdx == (cw.msgs.length : Int))
      let msgs := cw.msgs ++ [m]
      { msgs := msgs
        unreadIdx := if reset then (msgs.length : Int) else cw.unreadIdx }

/-- chatWindow.newUnsentPM (lines 201-211): appends a message with mine set. -/
def newUnsentPM (cw : ChatWindow) : ChatWindow :=
  appendMsg cw (some ⟨true, false, false⟩)

/-- chatWindow.newInternalMsg (lines 213-222): appends a message with
internal set. -/
def newInternalMsg (cw : ChatWindow) : ChatWindow :=
  appendMsg cw (some ⟨false, true, false⟩)

/-- chatWindow.manyHelpMsgs (lines 224-239): the callback appends help
messages directly to msgs, bypassing appendMsg; `n` is the number of pf
calls the callback makes. -/
def manyHelpMsgs (cw : ChatWindow) (n : Nat) : ChatWindow :=
  { cw with msgs := cw.msgs ++ List.replicate n ⟨false, false, true⟩ }

/-- chatWindow.newRecvdMsg (lines 247-259): appends a message with none of
the three flags set. -/
def newRecvdMsg (cw : ChatWindow) : ChatWindow :=
  appendMsg cw (some ⟨false, false, false⟩)

/-- chatWindow.markAllRead (lines 268-272). -/
def markAllRead (cw : ChatWindow) : ChatWindow :=
  { cw with unreadIdx := (cw.msgs.length : Int) }

/-- chatWindow.unreadCount (lines 274-279). -/
def unreadCount (cw : ChatWindow) : Int :=
  (cw.msgs.length : Int) - cw.unreadIdx

/-- The chat window invariant of claim C10. -/
def ChatWindowInv (cw : ChatWindow) : Prop :=
  0 ≤ cw.unreadIdx ∧ cw.unreadIdx ≤ (cw.msgs.length : Int)

instance (cw : ChatWindow) : Decidable (ChatWindowInv cw) :=
  inferInstanceAs (Decidable (0 ≤ cw.unreadIdx ∧ cw.unreadIdx ≤ (cw.msgs.length : Int)))

end ChatUI

/-
  Theorems.
-/

namespace Inidb

/-- Helper: pruning never touches the database file itself. -/
theorem prune_main (depth : Int) (d : DirState) :
    (prune depth d).main = d.main := by
  unfold prune
  split
  · rfl
  · split <;> rfl

/-- Helper: with a non-negative depth, pruning leaves at most depth backups. -/
theorem prune_length_le (depth : Int) (d : DirState) (hd : 0 ≤ depth) :
    ((prune depth d).backups.length : Int) ≤ depth := by
  unfold prune
  rw [if_neg (by omega)]
  split
  · next h => omega
  · next h =>
      simp only [List.length_drop]
      omega

/-- Helper: with a negative depth, pruning removes nothing. -/
theorem prune_of_neg (depth : Int) (d : DirState) (hd : depth < 0) :
    prune depth d = d := by
  unfold prune
  rw [if_pos hd]

/-- C8: for a table name absent from the database, Set, Del and DelTable all
return ErrNotFound and return the state unchanged: no table is created, no
record is modified, and the dirty flag keeps its previous value. -/
theorem missing_table_ops_noop (i : INIDB) (t k v : String)
    (h : Tables.find i.tables t = none) :
    i.set t k v = (some DBError.notFound, i) ∧
    i.del t k = (some DBError.notFound, i) ∧
    i.delTable t = (some DBError.notFound, i) := by
  unfold INIDB.set INIDB.del INIDB.delTable
  rw [h]
  exact ⟨rfl, rfl, rfl⟩

theorem missing_table_ops_noop_witness :
    INIDB.set ⟨1, false, false, [("a", [("k", "v")])]⟩ "b" "x" "y" =
      (some DBError.notFound, ⟨1, false, false, [("a", [("k", "v")])]⟩) ∧
    INIDB.del ⟨1, false, false, [("a", [("k", "v")])]⟩ "b" "x" =
      (some DBError.notFound, ⟨1, false, false, [("a", [("k", "v")])]⟩) ∧
    INIDB.delTable ⟨1, false, false, [("a", [("k", "v")])]⟩ "b" =
      (some DBError.notFound, ⟨1, false, false, [("a", [("k", "v")])]⟩) :=
  missing_table_ops_noop ⟨1, false, false, [("a", [("k", "v")])]⟩ "b" "x" "y" rfl

end Inidb

namespace ClientRPC

/-- C7 counterexample: VersionResponse does not declare a field named
`runtime`; its declared field names are not app_version, runtime, app_name. -/
theorem versionResponse_runtime_name_cex :
    versionResponseFields.map ProtoField.name ≠
      ["app_version", "runtime", "app_name"] := by
  decide

/-- C7 (amended): the Version operation returns a record with exactly the
three fields app_version, go_runtime and app_name, all strings, numbered
1, 2, 3. -/
theorem versionResponse_exact_fields :
    versionResponseFields.map ProtoField.name =
      ["app_version", "go_runtime", "app_name"] ∧
    versionResponseFields.length = 3 ∧
    versionResponseFields.map ProtoField.typ = ["string", "string", "string"] := by
  decide

/-- C2: the effective heartbeat interval is always at least 1 second; every
request below 1000 ms is served at 1000 ms and every request of at least
1000 ms is served at the requested interval. -/
theorem keepalive_interval_clamped (i : Int) :
    1000 ≤ effectiveKeepaliveInterval i ∧
    (i < 1000 → effectiveKeepaliveInterval i = 1000) ∧
    (1000 ≤ i → effectiveKeepaliveInterval i = i) := by
  unfold effectiveKeepaliveInterval
  split <;> omega

theorem keepalive_interval_clamped_witness :
    effectiveKeepaliveInterval 500 = 1000 ∧
    effectiveKeepaliveInterval 2000 = 2000 :=
  ⟨(keepalive_interval_clamped 500).2.1 (by decide),
   (keepalive_interval_clamped 2000).2.2 (by decide)⟩

end ClientRPC

namespace GC

/-- C3: an inbound GC message is accepted exactly when its generation equals
the cached one; lower generations are dropped and higher generations
trigger a metadata fetch instead of acceptance. -/
theorem generation_gate_spec (g cur : Nat) :
    (generationGate g cur = GenAction.accept ↔ g = cur) ∧
    (g < cur → generationGate g cur = GenAction.drop) ∧
    (cur < g →
      generationGate g cur = GenAction.fetchMeta ∧
      generationGate g cur ≠ GenAction.accept) := by
  unfold generationGate
  refine ⟨⟨fun h => ?_, fun h => ?_⟩, fun h => ?_, fun h => ?_⟩
  · by_contra hne
    rw [if_neg hne] at h
    split at h <;> simp_all
  · rw [if_pos h]
  · rw [if_neg (by omega), if_pos h]
  · rw [if_neg (by omega), if_neg (by omega)]
    exact ⟨rfl, by simp⟩

theorem generation_gate_spec_witness :
    (generationGate 3 3 = GenAction.accept ↔ (3 : Nat) = 3) ∧
    generationGate 2 3 = GenAction.drop ∧
    generationGate 5 3 = GenAction.fetchMeta := by
  refine ⟨(generation_gate_spec 3 3).1, ?_, ?_⟩
  · exact (generation_gate_spec 2 3).2.1 (by decide)
  · exact ((generation_gate_spec 5 3).2.2 (by decide)).1

end GC

namespace RV

/-- C6: registering a tag already present in the RV manager fails with
tag_collision and leaves the manager unchanged, so the existing mapping for
the tag survives; registration never silently overwrites a handler. -/
theorem register_collision_no_overwrite (m : Manager) (t : Tag) (h h0 : Nat)
    (hpresent : m.lookup t = some h0) :
    m.register t h = (Except.error RVError.tagCollision, m) ∧
    (m.register t h).2.lookup t = some h0 := by
  have hsome : (m.lookup t).isSome = true := by rw [hpresent]; rfl
  unfold Manager.register
  rw [if_pos hsome]
  exact ⟨rfl, hpresent⟩

theorem register_collision_no_overwrite_witness :
    Manager.register ⟨[([1, 2], 5)]⟩ [1, 2] 9 =
      (Except.error RVError.tagCollision, ⟨[([1, 2], 5)]⟩) ∧
    (Manager.register ⟨[([1, 2], 5)]⟩ [1, 2] 9).2.lookup [1, 2] = some 5 :=
  register_collision_no_overwrite ⟨[([1, 2], 5)]⟩ [1, 2] 9 5 rfl

end RV

namespace Inidb

/-- C1 (amended): for every Save of a dirty database that was loaded from an
existing file (created flag unset), the previous on-disk contents are first
preserved as a timestamped backup (the backup step succeeds and the fresh
backup is in the directory before the new contents replace the file), the
new rendering then replaces the file, and after the write at most the
configured depth of backup files is retained when the depth is
non-negative, while a negative depth retains all backups. -/
theorem save_backs_up_then_prunes (i : INIDB) (d : DirState) (now : Nat)
    (c : String) (hdirty : i.dirty = true) (hcreated : i.created = false)
    (hmain : d.main = some c) :
    backupStep i d now = Except.ok ⟨none, d.backups ++ [(now, c)]⟩ ∧
    (now, c) ∈ d.backups ++ [(now, c)] ∧
    save i d now = Except.ok ({ i with dirty := false }, savedDir i d now c) ∧
    (savedDir i d now c).main = some (renderTables i.tables) ∧
    (0 ≤ i.depth → ((savedDir i d now c).backups.length : Int) ≤ i.depth) ∧
    (i.depth < 0 → (savedDir i d now c).backups = d.backups ++ [(now, c)]) := by
  have hb : backupStep i d now = Except.ok ⟨none, d.backups ++ [(now, c)]⟩ := by
    unfold backupStep
    rw [hcreated, hmain]
    rfl
  have hs : save i d now =
      Except.ok ({ i with dirty := false }, savedDir i d now c) := by
    unfold save
    rw [hdirty, hb]
    rfl
  refine ⟨hb, List.mem_append_right _ (List.mem_singleton.mpr rfl), hs, ?_, ?_, ?_⟩
  · unfold savedDir
    rw [prune_main]
  · intro hd
    unfold savedDir
    exact prune_length_le _ _ hd
  · intro hd
    unfold savedDir
    rw [prune_of_neg _ _ hd]

theorem save_backs_up_then_prunes_witness :
    backupStep ⟨1, true, false, [("t", [("k", "v")])]⟩ ⟨some "prev", [(1, "b1"), (2, "b2")]⟩ 9 =
      Except.ok ⟨none, [(1, "b1"), (2, "b2")] ++ [(9, "prev")]⟩ ∧
    (9, "prev") ∈ [(1, "b1"), (2, "b2")] ++ [(9, "prev")] ∧
    save ⟨1, true, false, [("t", [("k", "v")])]⟩ ⟨some "prev", [(1, "b1"), (2, "b2")]⟩ 9 =
      Except.ok (⟨1, false, false, [("t", [("k", "v")])]⟩,
        savedDir ⟨1, true, false, [("t", [("k", "v")])]⟩ ⟨some "prev", [(1, "b1"), (2, "b2")]⟩ 9 "prev") ∧
    (savedDir ⟨1, true, false, [("t", [("k", "v")])]⟩ ⟨some "prev", [(1, "b1"), (2, "b2")]⟩ 9 "prev").main =
      some (renderTables [("t", [("k", "v")])]) ∧
    (0 ≤ (1 : Int) →
      (((savedDir ⟨1, true, false, [("t", [("k", "v")])]⟩ ⟨some "prev", [(1, "b1"), (2, "b2")]⟩ 9 "prev").backups.length : Int)) ≤ 1) ∧
    ((1 : Int) < 0 →
      (savedDir ⟨1, true, false, [("t", [("k", "v")])]⟩ ⟨some "prev", [(1, "b1"), (2, "b2")]⟩ 9 "prev").backups =
        [(1, "b1"), (2, "b2")] ++ [(9, "prev")]) :=
  save_backs_up_then_prunes ⟨1, true, false, [("t", [("k", "v")])]⟩
    ⟨some "prev", [(1, "b1"), (2, "b2")]⟩ 9 "prev" rfl rfl rfl

/-- C1 counterexample: the created flag is set by New when it creates the
database file and is never cleared, so a later Save of the same session,
here on a dirty database whose file holds "old", replaces the file without
preserving any backup: afterwards the directory holds no backup files at
all and the database file no longer holds "old". -/
theorem save_created_loses_original :
    save ⟨2, true, true, []⟩ ⟨some "old", []⟩ 7 =
      Except.ok (⟨2, false, true, []⟩, ⟨some (renderTables []), []⟩) ∧
    renderTables [] ≠ "old" := by
  exact ⟨rfl, by decide⟩

end Inidb

namespace ClientRPC

/-- Helper: marking records up to s acked is idempotent on the record list. -/
theorem ackMark_idem (s : Nat) (l : List (Nat × Bool)) :
    (l.map (fun r => if r.1 ≤ s then (r.1, true) else r)).map
        (fun r => if r.1 ≤ s then (r.1, true) else r) =
      l.map (fun r => if r.1 ≤ s then (r.1, true) else r) := by
  induction l with
  | nil => rfl
  | cons r l ih => by_cases h : r.1 ≤ s <;> simp [h, ih]

/-- C4: acking a sequence ID at or below the current acked high-water mark
leaves the durable ack state unchanged, and acking the same sequence ID
twice equals acking it once. -/
theorem ack_below_hw_noop (s : Nat) (st : AckState) (hwf : AckWf st)
    (hle : s ≤ st.hw) :
    ackUpTo s st = st ∧ ackUpTo s (ackUpTo s st) = ackUpTo s st := by
  have hrec : st.records.map (fun r => if r.1 ≤ s then (r.1, true) else r) =
      st.records := by
    have hall : ∀ r ∈ st.records, (if r.1 ≤ s then (r.1, true) else r) = r := by
      intro r hr
      by_cases h : r.1 ≤ s
      · rw [if_pos h]
        have hacked := hwf r hr (le_trans h hle)
        cases r
        simp_all
      · rw [if_neg h]
    calc st.records.map (fun r => if r.1 ≤ s then (r.1, true) else r)
        = st.records.map id := List.map_congr_left hall
      _ = st.records := List.map_id st.records
  have h1 : ackUpTo s st = st := by
    cases st with
    | mk hw records =>
        simp only [ackUpTo, AckState.mk.injEq]
        exact ⟨Nat.max_eq_left hle, hrec⟩
  exact ⟨h1, by rw [h1]; exact h1⟩

theorem ack_below_hw_noop_witness :
    ackUpTo 3 ⟨5, [(1, true), (3, true), (7, false)]⟩ =
      ⟨5, [(1, true), (3, true), (7, false)]⟩ ∧
    ackUpTo 3 (ackUpTo 3 ⟨5, [(1, true), (3, true), (7, false)]⟩) =
      ackUpTo 3 ⟨5, [(1, true), (3, true), (7, false)]⟩ :=
  ack_below_hw_noop 3 ⟨5, [(1, true), (3, true), (7, false)]⟩ (by decide) (by decide)

end ClientRPC

namespace ChatUI

/-- Helper: appendMsg preserves the chat window invariant. -/
theorem appendMsg_inv (cw : ChatWindow) (m : Option ChatMsg)
    (h : ChatWindowInv cw) : ChatWindowInv (appendMsg cw m) := by
  obtain ⟨h0, h1⟩ := h
  cases m with
  | none => exact ⟨h0, h1⟩
  | some m =>
      constructor <;>
        simp only [appendMsg, List.length_append, List.length_singleton] <;>
        split <;>
        push_cast <;>
        omega

/-- C10: starting from the empty chat window, appendMsg, newUnsentPM,
newInternalMsg, manyHelpMsgs, newRecvdMsg and markAllRead all preserve
0 ≤ unreadIdx ≤ len(msgs); under the invariant unreadCount is between 0
and the number of messages, and appendMsg with a nil message leaves the
window unchanged. -/
theorem chatWindow_ops_invariant (cw : ChatWindow) (m : Option ChatMsg)
    (n : Nat) (h : ChatWindowInv cw) :
    ChatWindowInv emptyChatWindow ∧
    ChatWindowInv (appendMsg cw m) ∧
    ChatWindowInv (newUnsentPM cw) ∧
    ChatWindowInv (newInternalMsg cw) ∧
    ChatWindowInv (manyHelpMsgs cw n) ∧
    ChatWindowInv (newRecvdMsg cw) ∧
    ChatWindowInv (markAllRead cw) ∧
    0 ≤ unreadCount cw ∧ unreadCount cw ≤ (cw.msgs.length : Int) ∧
    appendMsg cw none = cw := by
  refine ⟨by decide, appendMsg_inv cw m h, appendMsg_inv cw _ h,
    appendMsg_inv cw _ h, ?_, appendMsg_inv cw _ h, ?_, ?_, ?_, rfl⟩
  · refine ⟨h.1, ?_⟩
    have := h.2
    simp only [manyHelpMsgs, List.length_append, List.length_replicate]
    push_cast
    omega
  · exact ⟨Int.natCast_nonneg _, le_refl _⟩
  · have := h.2
    unfold unreadCount
    omega
  · have := h.1
    unfold unreadCount
    omega

theorem chatWindow_ops_invariant_witness :
    ChatWindowInv emptyChatWindow ∧
    ChatWindowInv (appendMsg emptyChatWindow (some ⟨false, false, false⟩)) ∧
    ChatWindowInv (newUnsentPM emptyChatWindow) ∧
    ChatWindowInv (newInternalMsg emptyChatWindow) ∧
    ChatWindowInv (manyHelpMsgs emptyChatWindow 2) ∧
    ChatWindowInv (newRecvdMsg emptyChatWindow) ∧
    ChatWindowInv (markAllRead emptyChatWindow) ∧
    0 ≤ unreadCount emptyChatWindow ∧
    unreadCount emptyChatWindow ≤ (emptyChatWindow.msgs.length : Int) ∧
    appendMsg emptyChatWindow none = emptyChatWindow :=
  chatWindow_ops_invariant emptyChatWindow (some ⟨false, false, false⟩) 2 (by decide)

end ChatUI

namespace RM

/-- Helper: decoding a length-prefixed string consumes exactly its encoding. -/
theorem decodeStr_encodeStr (s : String) (r : List Nat) :
    decodeStr (encodeStr s ++ r) = some (s, r) := by
  show (if s.data.length ≤ (s.data.map Char.toNat ++ r).length then
      some (String.mk (((s.data.map Char.toNat ++ r).take s.data.length).map Char.ofNat),
        (s.data.map Char.toNat ++ r).drop s.data.length)
    else none) = some (s, r)
  rw [if_pos (by simp)]
  have htake : (s.data.map Char.toNat ++ r).take s.data.length =
      s.data.map Char.toNat := by
    simp
  have hdrop : (s.data.map Char.toNat ++ r).drop s.data.length = r := by
    simp
  rw [htake, hdrop]
  have hmap : (s.data.map Char.toNat).map Char.ofNat = s.data := by
    rw [List.map_map]
    have hid : ∀ c ∈ s.data, (Char.ofNat ∘ Char.toNat) c = id c := by
      intro c _
      simp [Char.ofNat_toNat]
    rw [List.map_congr_left hid, List.map_id]
  rw [hmap]

/-- Helper: decoding a terminal length-prefixed string. -/
theorem decodeStr_encodeStr_nil (s : String) : decodeStr (encodeStr s) = some (s, []) := by
  have h := decodeStr_encodeStr s []
  rwa [List.append_nil] at h

/-- Helper: decoding length-prefixed bytes consumes exactly their encoding. -/
theorem decodeBytes_encodeBytes (b r : List Nat) :
    decodeBytes (encodeBytes b ++ r) = some (b, r) := by
  show (if b.length ≤ (b ++ r).length then
      some ((b ++ r).take b.length, (b ++ r).drop b.length)
    else none) = some (b, r)
  rw [if_pos (by simp)]
  rw [List.take_left, List.drop_left]

/-- Helper: decoding a terminal length-prefixed byte string. -/
theorem decodeBytes_encodeBytes_nil (b : List Nat) :
    decodeBytes (encodeBytes b) = some (b, []) := by
  have h := decodeBytes_encodeBytes b []
  rwa [List.append_nil] at h

/-- Helper: message modes round-trip. -/
theorem decodeMode_encodeMode (m : MessageMode) : decodeMode (encodeMode m) = some m := by
  cases m <;> rfl

/-- Helper: the single-string payload decoder inverts the encoder. -/
theorem decodePayload_encodeStr (mk : String → Msg) (p : String) :
    decodePayload mk (encodeStr p) = some (mk p) := by
  unfold decodePayload
  rw [decodeStr_encodeStr_nil]

/-- C5: decoding the encoding of every routed-message variant returns an
equal value, encoding is deterministic (equal messages produce equal byte
strings), and some byte strings not produced by encode fail to decode. -/
theorem codec_roundtrip (v w : Msg) (hvw : v = w) :
    decode (encode v) = some v ∧
    encode v = encode w ∧
    decode [99] = none := by
  subst hvw
  refine ⟨?_, rfl, by decide⟩
  cases v with
  | pm m =>
      obtain ⟨msg, mode⟩ := m
      simp [encode, decode, decodeTagged, decodePM,
        decodeMode_encodeMode, decodeStr_encodeStr_nil]
  | gcm m =>
      obtain ⟨id, gen, msg, mode⟩ := m
      simp [encode, decode, decodeTagged, decodeGCM, decodeMode_encodeMode,
        decodeBytes_encodeBytes, decodeStr_encodeStr_nil]
  | gcInvite p => simp [encode, decode, decodeTagged, decodePayload_encodeStr]
  | gcJoin p => simp [encode, decode, decodeTagged, decodePayload_encodeStr]
  | gcListUpdate p => simp [encode, decode, decodeTagged, decodePayload_encodeStr]
  | post p => simp [encode, decode, decodeTagged, decodePayload_encodeStr]
  | postStatus p => simp [encode, decode, decodeTagged, decodePayload_encodeStr]
  | postSubscribe p => simp [encode, decode, decodeTagged, decodePayload_encodeStr]
  | postUnsubscribe p => simp [encode, decode, decodeTagged, decodePayload_encodeStr]
  | tip a => rfl
  | tipProgress p => simp [encode, decode, decodeTagged, decodePayload_encodeStr]
  | kxStep p => simp [encode, decode, decodeTagged, decodePayload_encodeStr]
  | mediateKX p => simp [encode, decode, decodeTagged, decodePayload_encodeStr]
  | ftFrame p => simp [encode, decode, decodeTagged, decodeFT, decodeBytes_encodeBytes_nil]
  | ping => rfl

theorem codec_roundtrip_witness :
    decode (encode Msg.ping) = some Msg.ping ∧
    encode Msg.ping = encode Msg.ping ∧
    decode [99] = none :=
  codec_roundtrip Msg.ping Msg.ping rfl

end RM

namespace ChatUI

/-- Helper: content of a text element. -/
theorem content_ofText (s : List Char) : (ChatMsgEl.ofText s).content = s := by
  simp [ChatMsgEl.ofText, ChatMsgEl.content]

/-- Helper: content of a mention element. -/
theorem content_ofMention (m : List Char) : (ChatMsgEl.ofMention m).content = m := by
  simp [ChatMsgEl.ofMention, ChatMsgEl.content]

/-- Helper: content of a url element. -/
theorem content_ofUrl (u : List Char) : (ChatMsgEl.ofUrl u).content = u := by
  simp [ChatMsgEl.ofUrl, ChatMsgEl.content]

/-- Helper: lineContent distributes over cons. -/
theorem lineContent_cons (el : ChatMsgEl) (l : List ChatMsgEl) :
    lineContent (el :: l) = el.content ++ lineContent l := rfl

/-- Helper: lineContent distributes over append. -/
theorem lineContent_append (l1 l2 : List ChatMsgEl) :
    lineContent (l1 ++ l2) = lineContent l1 ++ lineContent l2 := by
  induction l1 with
  | nil => rfl
  | cons el l ih =>
      rw [List.cons_append, lineContent_cons, ih, lineContent_cons,
        List.append_assoc]

/-- Helper: the Go slice `s[a:b]` concatenated with the rest of the string
from b recovers the rest of the string from a. -/
theorem substr_append_drop (s : List Char) (a b : Nat) (hab : a ≤ b) :
    substr s a b ++ s.drop b = s.drop a := by
  unfold substr
  have h1 : s.drop b = (s.drop a).drop (b - a) := by
    rw [List.drop_drop]
    congr 1
    omega
  rw [h1, List.take_append_drop]

/-- Helper: the content of a split element equals the contents of the
original element from the split offset on, for any valid match positions. -/
theorem splitSegs_content (mk : List Char → ChatMsgEl)
    (hmk : ∀ m, (mk m).content = m) (s : List Char) (ps : List (Nat × Nat)) :
    ∀ lastEnd : Nat, validSegs lastEnd ps = true →
      lineContent (splitSegs mk s lastEnd ps) = s.drop lastEnd := by
  induction ps with
  | nil =>
      intro lastEnd _
      rw [show splitSegs mk s lastEnd [] = [ChatMsgEl.ofText (s.drop lastEnd)] from rfl]
      rw [lineContent_cons, content_ofText]
      exact List.append_nil _
  | cons p ps ih =>
      intro lastEnd hv
      obtain ⟨a, b⟩ := p
      simp only [validSegs, Bool.and_eq_true, decide_eq_true_eq] at hv
      obtain ⟨⟨h1, h2⟩, h3⟩ := hv
      rw [show splitSegs mk s lastEnd ((a, b) :: ps) =
          ChatMsgEl.ofText (substr s lastEnd a) :: mk (substr s a b) ::
            splitSegs mk s b ps from rfl]
      rw [lineContent_cons, lineContent_cons, content_ofText, hmk, ih b h3,
        substr_append_drop s a b h2, substr_append_drop s lastEnd a h1]

/-- Helper: one splitting pass preserves the concatenated content, provided
the wrapper keeps the matched string as its content, the match positions of
every element are valid, and nonempty text elements carry no mention or url
(as at every construction site in the source). -/
theorem splitPass_content (mk : List Char → ChatMsgEl)
    (find : List Char → List (Nat × Nat)) (hmk : ∀ m, (mk m).content = m)
    (l : List ChatMsgEl)
    (hfind : ∀ el ∈ l, validSegs 0 (find el.text) = true)
    (hwf : ∀ el ∈ l, textOnly el = true) :
    lineContent (splitPass mk find l) = lineContent l := by
  induction l with
  | nil => rfl
  | cons el l ih =>
      have hel : validSegs 0 (find el.text) = true :=
        hfind el (List.mem_cons_self el l)
      have hw : textOnly el = true := hwf el (List.mem_cons_self el l)
      have hsp : splitPass mk find (el :: l) =
          (if el.text = [] then [el]
            else match find el.text with
              | [] => [el]
              | ps => splitSegs mk el.text 0 ps) ++ splitPass mk find l := by
        rw [show splitPass mk find (el :: l) =
            (if el.text = [] then [el]
              else match find el.text with
                | [] => [el]
                | ps => splitSegs mk el.text 0 ps) ++ splitPass mk find l from rfl]
      rw [hsp, lineContent_append,
        ih (fun e he => hfind e (List.mem_cons_of_mem el he))
          (fun e he => hwf e (List.mem_cons_of_mem el he)),
        lineContent_cons]
      congr 1
      by_cases ht : el.text = []
      · rw [if_pos ht, lineContent_cons]
        exact List.append_nil _
      · rw [if_neg ht]
        have hmu : el.mention = none ∧ el.url = none := by
          simp only [textOnly, Bool.or_eq_true, Bool.and_eq_true,
            decide_eq_true_eq] at hw
          rcases hw with hw | hw
          · exact absurd hw ht
          · exact hw
        have hcontent : el.content = el.text := by
          unfold ChatMsgEl.content
          rw [hmu.1, hmu.2]
          simp
        cases hfe : find el.text with
        | nil =>
            rw [lineContent_cons]
            exact List.append_nil _
        | cons q qs =>
            have hv : validSegs 0 (find el.text) = true := hel
            rw [hfe] at hv
            calc lineContent (splitSegs mk el.text 0 (q :: qs))
                = el.text.drop 0 := splitSegs_content mk hmk el.text (q :: qs) 0 hv
              _ = el.content := by rw [List.drop_zero, hcontent]

/-- C9: for every element list whose nonempty text elements carry no mention
or url string (as at every construction site), and any match-position
functions returning ordered non-overlapping in-range matches (as
regexp.FindAllStringIndex does for the mention pattern and the URL
pattern), the splitMentions pass and the splitURLs pass preserve content:
the concatenation of text, mention and url strings in list order is
unchanged. -/
theorem split_passes_preserve_content
    (findM findU : List Char → List (Nat × Nat)) (l : List ChatMsgEl)
    (hM : ∀ el ∈ l, validSegs 0 (findM el.text) = true)
    (hU : ∀ el ∈ l, validSegs 0 (findU el.text) = true)
    (hwf : ∀ el ∈ l, textOnly el = true) :
    lineContent (splitMentions findM l) = lineContent l ∧
    lineContent (splitURLs findU l) = lineContent l :=
  ⟨splitPass_content ChatMsgEl.ofMention findM content_ofMention l hM hwf,
   splitPass_content ChatMsgEl.ofUrl findU content_ofUrl l hU hwf⟩

theorem split_passes_preserve_content_witness :
    lineContent (splitMentions
        (fun s => if s = ("hi bob go http:a b".data) then [(3, 6)] else [])
        [ChatMsgEl.ofText ("hi bob go http:a b".data)]) =
      lineContent [ChatMsgEl.ofText ("hi bob go http:a b".data)] ∧
    lineContent (splitURLs
        (fun s => if s = ("hi bob go http:a b".data) then [(10, 16)] else [])
        [ChatMsgEl.ofText ("hi bob go http:a b".data)]) =
      lineContent [ChatMsgEl.ofText ("hi bob go http:a b".data)] :=
  split_passes_preserve_content
    (fun s => if s = ("hi bob go http:a b".data) then [(3, 6)] else [])
    (fun s => if s = ("hi bob go http:a b".data) then [(10, 16)] else [])
    [ChatMsgEl.ofText ("hi bob go http:a b".data)]
    (by decide) (by decide) (by decide)

end ChatUI

end BisonRelay
